import Mathlib

/-!
Verification development for the find-political-donors repository.

The repository computes running (zip-grouped) and final (date-grouped) medians
of political-donation transaction amounts.  Source files embedded here:
  - src/heap.py                : MinHeap / MaxHeap wrappers around Python heapq
  - src/transaction_handling.py: dual-heap median tracker and the two handlers
  - src/main.py                : per-line validation and dispatch (read_file)

Modelling conventions.
  * Transaction amounts are modelled as rationals (ℚ); the Python program uses
    floats, which the specification idealises as real numbers.
  * Python `heapq` is an external library; it is modelled by its documented
    priority-queue contract: the backing list always has the minimum at index 0,
    `heappush` adds one element, `heappop` removes the minimum.  We realise that
    contract with an ascending sorted list, whose observable behaviour
    (root, pop, size, multiset of elements) coincides with heapq's.
  * Python dicts are modelled as insertion-ordered association lists with
    unique keys (`PyDict`), matching Python 3 dict semantics.
  * Exceptions are modelled with `Except PyErr`: a missing dict key raises
    `KeyError`, arithmetic on `None` raises `TypeError`, an out-of-range list
    index raises `IndexError`.  Note that `KeyError` is not a subclass of
    `IndexError` in Python, so `except IndexError:` clauses do not catch it.
  * `round` is modelled with Python 3 semantics (round-half-to-even) and
    `int()` on a float truncates toward zero.
-/

namespace FindPoliticalDonors

open List

/-- Python exception kinds relevant to this program. -/
inductive PyErr where
  | keyError : PyErr
  | typeError : PyErr
  | indexError : PyErr
deriving DecidableEq, Repr

/-! ## src/heap.py

`MinHeap.heap` is the heapq backing list itself.  `MaxHeap.heap` stores the
NEGATED values (the source pushes `-value` and negates on pop/peek).  Both
backing lists are modelled as ascending sorted lists (see header note). -/

/-- `MinHeap.push`: `heapq.heappush(self.heap, value)`. -/
def minHeapPush (h : List ℚ) (value : ℚ) : List ℚ :=
  h.orderedInsert (· ≤ ·) value

/-- `MinHeap.pop`: returns the root (minimum) and the remaining list;
`none` when the heap is empty (the source checks `if self.heap`). -/
def minHeapPop (h : List ℚ) : Option ℚ × List ℚ :=
  (h.head?, h.tail)

/-- `MinHeap.peek`: root element, `none` when empty. -/
def minHeapPeek (h : List ℚ) : Option ℚ :=
  h.head?

/-- `MaxHeap.push`: the source pushes the negation into a min-heap. -/
def maxHeapPush (h : List ℚ) (value : ℚ) : List ℚ :=
  h.orderedInsert (· ≤ ·) (-value)

/-- `MaxHeap.pop`: pops the stored minimum and negates it back; `none` when
empty. -/
def maxHeapPop (h : List ℚ) : Option ℚ × List ℚ :=
  (h.head?.map Neg.neg, h.tail)

/-- `MaxHeap.peek`: negation of the stored root, `none` when empty. -/
def maxHeapPeek (h : List ℚ) : Option ℚ :=
  h.head?.map Neg.neg

/-! ## Python numeric conversions (runtime semantics) -/

/-- Python 3 `round(q)` (one-argument): nearest integer, ties to the even
integer.  `int(round(q))` equals `round(q)` since `round` already yields an
integer. -/
def pyRound (q : ℚ) : Int :=
  if q - ⌊q⌋ < 1/2 then ⌊q⌋
  else if 1/2 < q - ⌊q⌋ then ⌊q⌋ + 1
  else if 2 ∣ ⌊q⌋ then ⌊q⌋ else ⌊q⌋ + 1

/-- Python `int()` on a float/number: truncation toward zero. -/
def pyInt (q : ℚ) : Int :=
  if q < 0 then ⌈q⌉ else ⌊q⌋

/-! ## Python dict model: insertion-ordered association list, unique keys. -/

/-- Python 3 dict with `String` keys: association list in insertion order. -/
abbrev PyDict (α : Type) : Type := List (String × α)

/-- The empty dict. -/
def dictEmpty {α : Type} : PyDict α := []

/-- `d[k]` lookup (as an `Option`; `none` models the `KeyError` case). -/
def dictGet {α : Type} (d : PyDict α) (k : String) : Option α :=
  match d with
  | [] => none
  | (k', v) :: rest => if k' = k then some v else dictGet rest k

/-- `d[k] = v`: in-place update preserving position for an existing key,
append for a new key (Python 3 insertion-order semantics). -/
def dictSet {α : Type} (d : PyDict α) (k : String) (v : α) : PyDict α :=
  match d with
  | [] => [(k, v)]
  | (k', v') :: rest => if k' = k then (k, v) :: rest else (k', v') :: dictSet rest k v

/-! ## src/transaction_handling.py: the dual-heap median tracker -/

/-- One entry of `self.transaction_amt_heaps`: the tuple
`(heap.MaxHeap(), heap.MinHeap())` — lower half first, higher half second. -/
structure HeapPair where
  low : List ℚ
  high : List ℚ
deriving DecidableEq, Repr

/-- The freshly created pair `(heap.MaxHeap(), heap.MinHeap())`. -/
def emptyPair : HeapPair := ⟨[], []⟩

/-- Body of `transaction_heaps_add_number` acting on one pair:
`if lower.empty() or number < lower.peek(): lower.push(number)
 else: higher.push(number)`.  The `or` is short-circuiting, so `peek` is
only consulted when the lower heap is non-empty. -/
def addPair (hp : HeapPair) (number : ℚ) : HeapPair :=
  match maxHeapPeek hp.low with
  | none => { hp with low := maxHeapPush hp.low number }
  | some m =>
    if number < m then { hp with low := maxHeapPush hp.low number }
    else { hp with high := minHeapPush hp.high number }

/-- Body of `transaction_heaps_rebalance` acting on one pair.  The source
selects `bigger`/`smaller` by `heaps[0].size() > heaps[1].size()` (ties give
`bigger = higher`) and moves one root when
`bigger.size() - smaller.size() >= 2` (written here without natural-number
truncated subtraction).  When that guard holds the bigger heap has at least
two elements, so its `pop` cannot return `None`; the `none` branches below
are unreachable. -/
def rebalancePair (hp : HeapPair) : HeapPair :=
  if hp.high.length < hp.low.length then
    if hp.high.length + 2 ≤ hp.low.length then
      match maxHeapPop hp.low with
      | (some v, low') => ⟨low', minHeapPush hp.high v⟩
      | (none, _) => hp
    else hp
  else
    if hp.low.length + 2 ≤ hp.high.length then
      match minHeapPop hp.high with
      | (some v, high') => ⟨maxHeapPush hp.low v, high'⟩
      | (none, _) => hp
    else hp

/-- Body of `transaction_heaps_get_median` acting on one pair.  The source
picks `bigger`/`smaller` exactly as in rebalancing; when `lower` is strictly
bigger the sizes differ, so only the unequal branch can run.  When the sizes
are equal it returns `int(round((bigger.peek() + smaller.peek())/2.0))` with
`bigger = higher`; `peek()` on an empty heap yields `None`, and arithmetic on
`None` raises `TypeError`. -/
def medianPair (hp : HeapPair) : Except PyErr Int :=
  if hp.high.length < hp.low.length then
    match maxHeapPeek hp.low with
    | some v => .ok (pyRound v)
    | none => .error .typeError
  else if hp.low.length = hp.high.length then
    match minHeapPeek hp.high, maxHeapPeek hp.low with
    | some b, some s => .ok (pyRound ((b + s) / 2))
    | _, _ => .error .typeError
  else
    match minHeapPeek hp.high with
    | some v => .ok (pyRound v)
    | none => .error .typeError

/-- The dict `self.transaction_amt_heaps`. -/
abbrev TransHeaps : Type := PyDict HeapPair

/-- `TransactionThread.transaction_heaps_add_number`: creates the pair on
first use, then applies the placement rule. -/
def transaction_heaps_add_number (d : TransHeaps) (identifier : String)
    (number : ℚ) : TransHeaps :=
  dictSet d identifier (addPair ((dictGet d identifier).getD emptyPair) number)

/-- `TransactionThread.transaction_heaps_rebalance`.  The dict subscript on a
missing key raises `KeyError`; the surrounding `except IndexError:` clause
does not catch `KeyError` (and no `IndexError` can arise in the body, since
the heaps' `pop`/`peek` return `None` instead of raising), so the error
propagates. -/
def transaction_heaps_rebalance (d : TransHeaps) (identifier : String) :
    Except PyErr TransHeaps :=
  match dictGet d identifier with
  | none => .error .keyError
  | some hp => .ok (dictSet d identifier (rebalancePair hp))

/-- `TransactionThread.transaction_heaps_get_median`.  As with rebalancing,
a missing key raises `KeyError`, which the `except IndexError:` clause does
not catch. -/
def transaction_heaps_get_median (d : TransHeaps) (identifier : String) :
    Except PyErr Int :=
  match dictGet d identifier with
  | none => .error .keyError
  | some hp => medianPair hp

/-! ## Call sequences on the tracker -/

/-- One `transaction_heaps_add_number` followed by one
`transaction_heaps_rebalance` at the pair level. -/
def stepPair (hp : HeapPair) (q : ℚ) : HeapPair :=
  rebalancePair (addPair hp q)

/-- A call to either tracker mutator for a fixed identifier. -/
inductive HeapOp where
  | add (q : ℚ) : HeapOp
  | rebalance : HeapOp
deriving DecidableEq, Repr

/-- Run an arbitrary sequence of tracker calls for one identifier. -/
def runHeapOps (identifier : String) : List HeapOp → TransHeaps →
    Except PyErr TransHeaps
  | [], d => .ok d
  | .add q :: rest, d =>
      runHeapOps identifier rest (transaction_heaps_add_number d identifier q)
  | .rebalance :: rest, d => do
      let d' ← transaction_heaps_rebalance d identifier
      runHeapOps identifier rest d'

/-- Insert the values one at a time, each insertion immediately followed by
one rebalance call (the calling discipline used by both handlers). -/
def runAddRebalance (identifier : String) : List ℚ → TransHeaps →
    Except PyErr TransHeaps
  | [], d => .ok d
  | q :: rest, d => do
      let d' ← transaction_heaps_rebalance
        (transaction_heaps_add_number d identifier q) identifier
      runAddRebalance identifier rest d'

/-- The values a heap-op sequence inserts, in call order. -/
def addedVals : List HeapOp → List ℚ
  | [] => []
  | .add q :: rest => q :: addedVals rest
  | .rebalance :: rest => addedVals rest

/-- The actual (non-negated) values held in the lower heap. -/
def lowVals (hp : HeapPair) : List ℚ := hp.low.map Neg.neg

/-- All values held by the pair, lower half first. -/
def pairContents (hp : HeapPair) : List ℚ := lowVals hp ++ hp.high

/-- Total number of stored values of the pair at a key (`0` if absent). -/
def pairSizeAt (d : TransHeaps) (identifier : String) : Nat :=
  ((dictGet d identifier).getD emptyPair).low.length +
    ((dictGet d identifier).getD emptyPair).high.length

/-- Contents of the pair at a key (`[]` if absent). -/
def pairContentsAt (d : TransHeaps) (identifier : String) : List ℚ :=
  pairContents ((dictGet d identifier).getD emptyPair)

/-! ## src/transaction_handling.py: the worker threads' handlers

Thread/queue plumbing (Queue, run loop, daemon flag, file objects) is I/O
machinery outside the algorithmic content; the `handler` bodies are embedded
as state transformers, with written output collected in `output_lines`. -/

/-- The `distilled_data` dict built by `read_file`. -/
structure PyRecord where
  cmte_id : String
  zipcode : String
  transaction_dt : String
  transaction_amt : ℚ
deriving DecidableEq, Repr

/-- Mutable state of one `TransactionThread`: the two dicts, the lines
written to its output file, and whether the file has been closed. -/
structure ThreadState where
  total_amt_dict : PyDict ℚ
  transaction_amt_heaps : TransHeaps
  output_lines : List String
  closed : Bool
deriving DecidableEq, Repr

/-- State right after the constructor ran: both dicts empty, no output. -/
def initialThreadState : ThreadState := ⟨[], [], [], false⟩

/-- Python `identifier.split('|')` (single-character separator). -/
def pySplitPipeChars : List Char → List String
  | [] => [""]
  | c :: rest =>
    if c = '|' then "" :: pySplitPipeChars rest
    else
      match pySplitPipeChars rest with
      | [] => [String.mk [c]]
      | s :: tail => String.mk (c :: s.data) :: tail

/-- Python `s.split('|')`. -/
def pySplitPipe (s : String) : List String := pySplitPipeChars s.data

/-- Python list subscript `l[i]` for a non-negative index: raises
`IndexError` when out of range. -/
def pyListGet {α : Type} (l : List α) (i : Nat) : Except PyErr α :=
  match l.get? i with
  | some x => .ok x
  | none => .error .indexError

/-- Dict subscript `d[k]`: raises `KeyError` when the key is absent. -/
def pyDictGet {α : Type} (d : PyDict α) (k : String) : Except PyErr α :=
  match dictGet d k with
  | some v => .ok v
  | none => .error .keyError

/-- `TransactionByZipThread.handler`.  An empty `cmte_id` is the
end-of-stream sentinel and closes the output file; otherwise the record is
aggregated under `'%s|%s' % (cmte_id, zipcode)` and one output line
`'%s|%s|%d|%d|%d'` is emitted immediately. -/
def zipHandler (s : ThreadState) (data : PyRecord) : Except PyErr ThreadState :=
  if data.cmte_id = "" then .ok { s with closed := true }
  else
    let identifier := data.cmte_id ++ "|" ++ data.zipcode
    let total := (dictGet s.total_amt_dict identifier).getD 0 + data.transaction_amt
    let totals := dictSet s.total_amt_dict identifier total
    let heaps1 := transaction_heaps_add_number s.transaction_amt_heaps identifier
      data.transaction_amt
    do
      let heaps2 ← transaction_heaps_rebalance heaps1 identifier
      let hp ← pyDictGet heaps2 identifier
      let number_of_transactions := hp.low.length + hp.high.length
      let running_median ← transaction_heaps_get_median heaps2 identifier
      let total_transaction_amount := pyInt total
      let line := data.cmte_id ++ "|" ++ data.zipcode ++ "|" ++
        toString running_median ++ "|" ++ toString number_of_transactions ++ "|" ++
        toString total_transaction_amount
      .ok ⟨totals, heaps2, s.output_lines ++ [line], s.closed⟩

/-- Body of the `for identifier in self.transaction_amt_heaps:` flush loop of
`TransactionByDateThread.handler`, iterating over the given keys in dict
(insertion) order and accumulating the written lines. -/
def dateFlushLoop (totals : PyDict ℚ) (heaps : TransHeaps) :
    List String → List String → Except PyErr (List String)
  | [], acc => .ok acc
  | identifier :: rest, acc => do
      let hp ← pyDictGet heaps identifier
      let number_of_transactions := hp.low.length + hp.high.length
      let median ← transaction_heaps_get_median heaps identifier
      let total ← pyDictGet totals identifier
      let cmte_id ← pyListGet (pySplitPipe identifier) 0
      let transaction_dt ← pyListGet (pySplitPipe identifier) 1
      let line := cmte_id ++ "|" ++ transaction_dt ++ "|" ++ toString median ++
        "|" ++ toString number_of_transactions ++ "|" ++ toString (pyInt total)
      dateFlushLoop totals heaps rest (acc ++ [line])

/-- `TransactionByDateThread.handler`.  On the sentinel it flushes one line
per group key (in the heaps dict's insertion order) and closes the file; on a
record it aggregates under `'%s|%s' % (cmte_id, transaction_dt)` with no
output. -/
def dateHandler (s : ThreadState) (data : PyRecord) : Except PyErr ThreadState :=
  if data.cmte_id = "" then do
    let lines ← dateFlushLoop s.total_amt_dict s.transaction_amt_heaps
      (s.transaction_amt_heaps.map Prod.fst) []
    .ok ⟨s.total_amt_dict, s.transaction_amt_heaps, s.output_lines ++ lines, true⟩
  else
    let identifier := data.cmte_id ++ "|" ++ data.transaction_dt
    let total := (dictGet s.total_amt_dict identifier).getD 0 + data.transaction_amt
    let totals := dictSet s.total_amt_dict identifier total
    let heaps1 := transaction_heaps_add_number s.transaction_amt_heaps identifier
      data.transaction_amt
    do
      let heaps2 ← transaction_heaps_rebalance heaps1 identifier
      .ok ⟨totals, heaps2, s.output_lines, s.closed⟩

/-! ## src/main.py: per-line validation and dispatch

`is_number` wraps Python `float()` parsing and `is_valid_date` wraps
`datetime.strptime(date_str, '%m%d%Y')`; both delegate to the Python runtime,
an external collaborator, so they enter the model as function parameters
(`pyFloatParse` returning `none` for a `ValueError`, and `isValidDate`).
The per-line body of `read_file` is embedded below on the already split
`line_items = line.split('|')` list. -/

/-- A record forwarded to one of the two worker queues. -/
inductive Dispatch where
  | toDate (r : PyRecord) : Dispatch
  | toZip (r : PyRecord) : Dispatch
deriving DecidableEq, Repr

/-- Column positions from src/main.py. -/
def CMTE_ID_POSITION : Nat := 0

/-- `ZIPCODE_POSITION = 10`. -/
def ZIPCODE_POSITION : Nat := 10

/-- `TRANSACTION_DT_POSITION = 13`. -/
def TRANSACTION_DT_POSITION : Nat := 13

/-- `TRANSACTION_AMT_POSITION = 14`. -/
def TRANSACTION_AMT_POSITION : Nat := 14

/-- `OTHER_ID_POSITION = 15`. -/
def OTHER_ID_POSITION : Nat := 15

/-- Per-line body of `read_file`: validation, record construction, and the
dispatch decisions.  Returns the tasks enqueued for this line, date-thread
task first (the order the source enqueues them).  Note the source truncates
`zipcode` to its first five characters only for the zip-thread task, after
the date-thread task was already enqueued. -/
def readFileLine (pyFloatParse : String → Option ℚ) (isValidDate : String → Bool)
    (line_items : List String) : Except PyErr (List Dispatch) := do
  let other_id ← pyListGet line_items OTHER_ID_POSITION
  if other_id ≠ "" then return []
  let cmte_id ← pyListGet line_items CMTE_ID_POSITION
  let amt_str ← pyListGet line_items TRANSACTION_AMT_POSITION
  if cmte_id = "" ∨ amt_str = "" ∨ (pyFloatParse amt_str).isNone then return []
  let zipcode ← pyListGet line_items ZIPCODE_POSITION
  let transaction_dt ← pyListGet line_items TRANSACTION_DT_POSITION
  let transaction_amt := (pyFloatParse amt_str).getD 0
  let dateTasks := if transaction_dt ≠ "" ∧ isValidDate transaction_dt then
    [Dispatch.toDate ⟨cmte_id, zipcode, transaction_dt, transaction_amt⟩] else []
  let zipTasks := if 5 ≤ zipcode.length then
    [Dispatch.toZip ⟨cmte_id, zipcode.take 5, transaction_dt, transaction_amt⟩] else []
  return dateTasks ++ zipTasks

/-! ## Specification-side definitions (from the spec's words, for comparison) -/

/-- Modelled from the spec: the true statistical median of a multiset of
reals — middle value for odd count, average of the two middle values for
even count. -/
def trueMedian (vals : List ℚ) : ℚ :=
  if vals.length % 2 = 1 then
    (vals.insertionSort (· ≤ ·)).getD (vals.length / 2) 0
  else
    ((vals.insertionSort (· ≤ ·)).getD (vals.length / 2 - 1) 0 +
      (vals.insertionSort (· ≤ ·)).getD (vals.length / 2) 0) / 2

/-- Modelled from the spec: rounding to the nearest integer with ties away
from zero (the rounding rule the spec claims for emitted medians). -/
def roundHalfAwayFromZero (q : ℚ) : Int :=
  if 0 ≤ q then ⌊q + 1/2⌋ else ⌈q - 1/2⌉

/-! ## Monad unfolding helpers for `Except` -/

theorem except_bind_ok {ε α β : Type} (a : α) (f : α → Except ε β) :
    (Except.ok a >>= f) = f a := rfl

theorem except_bind_error {ε α β : Type} (e : ε) (f : α → Except ε β) :
    ((Except.error e : Except ε α) >>= f) = Except.error e := rfl

theorem except_pure_def {ε α : Type} (a : α) :
    (pure a : Except ε α) = Except.ok a := rfl

theorem except_map_ok {ε α β : Type} (f : α → β) (a : α) :
    (f <$> (Except.ok a : Except ε α)) = Except.ok (f a) := rfl

/-! ## Dictionary lemmas -/

theorem dictGet_dictSet_self {α : Type} (d : PyDict α) (k : String) (v : α) :
    dictGet (dictSet d k v) k = some v := by
  induction d with
  | nil => simp [dictGet, dictSet]
  | cons p rest ih =>
    obtain ⟨k', v'⟩ := p
    by_cases h : k' = k <;> simp [dictGet, dictSet, h, ih]

theorem dictGet_dictSet_other {α : Type} (d : PyDict α) (k k' : String) (v : α)
    (h : ¬ k = k') : dictGet (dictSet d k v) k' = dictGet d k' := by
  induction d with
  | nil => simp [dictGet, dictSet, h]
  | cons p rest ih =>
    obtain ⟨k'', v''⟩ := p
    by_cases h' : k'' = k
    · subst h'
      simp [dictGet, dictSet, h]
    · simp [dictGet, dictSet, h', ih]

/-! ## Claim theorems: error handling (C7, C10) -/

/-- C10: for both `MinHeap` and `MaxHeap`, `pop` and `peek` on an empty heap
return `None` rather than raising; in particular a tracker pair whose two
heaps are both empty yields `None` root values. -/
theorem minmax_heap_empty_pop_peek_none :
    minHeapPop ([] : List ℚ) = (none, []) ∧ minHeapPeek ([] : List ℚ) = none ∧
    maxHeapPop ([] : List ℚ) = (none, []) ∧ maxHeapPeek ([] : List ℚ) = none ∧
    maxHeapPeek emptyPair.low = none ∧ minHeapPeek emptyPair.high = none :=
  ⟨rfl, rfl, rfl, rfl, rfl, rfl⟩

/-- C7: rebalancing or querying the median for a group key that was never
inserted into raises `KeyError` (the dict subscript fails before any numeric
work), and the surrounding `except IndexError:` clause does not catch it, so
the exception propagates and no numeric output is produced. -/
theorem missing_key_error_propagates (d : TransHeaps) (identifier : String)
    (h : dictGet d identifier = none) :
    transaction_heaps_rebalance d identifier = .error .keyError ∧
    transaction_heaps_get_median d identifier = .error .keyError := by
  constructor <;>
    simp [transaction_heaps_rebalance, transaction_heaps_get_median, h]

/-- Witness for C7 at the empty heaps dict and key "C001|01012017". -/
theorem missing_key_error_propagates_witness :
    transaction_heaps_rebalance dictEmpty "C001|01012017" = .error .keyError ∧
    transaction_heaps_get_median dictEmpty "C001|01012017" = .error .keyError :=
  missing_key_error_propagates dictEmpty "C001|01012017" rfl

/-! ## Claim theorems: ingestion (C8, C9) -/

/-- C9: a line whose other-id column (0-indexed column 15) is non-empty is
forwarded to neither aggregator: `read_file` enqueues no task for it. -/
theorem nonempty_other_id_drops_record
    (pyFloatParse : String → Option ℚ) (isValidDate : String → Bool)
    (line_items : List String) (other_id : String)
    (h15 : pyListGet line_items OTHER_ID_POSITION = .ok other_id)
    (hne : other_id ≠ "") :
    readFileLine pyFloatParse isValidDate line_items = .ok [] := by
  simp [readFileLine, h15, hne, except_bind_ok, except_pure_def]

/-- Witness for C9: a concrete 16-column line with other id "C99". -/
theorem nonempty_other_id_drops_record_witness :
    readFileLine (fun _ => some 1) (fun _ => true)
      ["C1", "", "", "", "", "", "", "", "", "", "90210", "", "", "01012017",
        "384", "C99"] = .ok [] :=
  nonempty_other_id_drops_record (fun _ => some 1) (fun _ => true) _ "C99" rfl
    (by decide)

/-- C8: for a line passing the other-id, committee-id and amount checks, a
zip field shorter than 5 characters is never forwarded to the zip thread yet
is forwarded to the date thread whenever its date field is non-empty and
valid; with a zip field of length at least 5, the zip-thread record carries
exactly the first 5 characters of the zip field. -/
theorem zip_length_routing
    (pyFloatParse : String → Option ℚ) (isValidDate : String → Bool)
    (line_items : List String) (cmte_id zipcode transaction_dt amt_str : String)
    (h15 : pyListGet line_items OTHER_ID_POSITION = .ok "")
    (h0 : pyListGet line_items CMTE_ID_POSITION = .ok cmte_id)
    (h14 : pyListGet line_items TRANSACTION_AMT_POSITION = .ok amt_str)
    (h10 : pyListGet line_items ZIPCODE_POSITION = .ok zipcode)
    (h13 : pyListGet line_items TRANSACTION_DT_POSITION = .ok transaction_dt)
    (hc : cmte_id ≠ "") (ha : amt_str ≠ "") (hn : (pyFloatParse amt_str).isSome) :
    ∃ out, readFileLine pyFloatParse isValidDate line_items = .ok out ∧
      (zipcode.length < 5 →
        (∀ r, Dispatch.toZip r ∉ out) ∧
        (transaction_dt ≠ "" → isValidDate transaction_dt = true →
          Dispatch.toDate
            ⟨cmte_id, zipcode, transaction_dt, (pyFloatParse amt_str).getD 0⟩ ∈ out)) ∧
      (5 ≤ zipcode.length →
        ∀ r, Dispatch.toZip r ∈ out → r.zipcode = zipcode.take 5) := by
  have hnone : ¬ pyFloatParse amt_str = none := by
    rcases Option.isSome_iff_exists.mp hn with ⟨a, ha'⟩
    simp [ha']
  refine ⟨(if transaction_dt ≠ "" ∧ isValidDate transaction_dt = true then
      [Dispatch.toDate ⟨cmte_id, zipcode, transaction_dt,
        (pyFloatParse amt_str).getD 0⟩] else []) ++
    (if 5 ≤ zipcode.length then
      [Dispatch.toZip ⟨cmte_id, zipcode.take 5, transaction_dt,
        (pyFloatParse amt_str).getD 0⟩] else []), ?_, ?_, ?_⟩
  · simp [readFileLine, h15, h0, h14, h10, h13, hc, ha, hnone,
      except_bind_ok, except_pure_def, except_map_ok]
  · intro hshort
    constructor
    · intro r hr
      rcases List.mem_append.mp hr with hmem | hmem
      · split at hmem <;> simp_all
      · have hz : ¬ 5 ≤ zipcode.length := by omega
        simp [hz] at hmem
    · intro hdt hvalid
      apply List.mem_append.mpr
      left
      simp [hdt, hvalid]
  · intro hlong r hr
    rcases List.mem_append.mp hr with hmem | hmem
    · split at hmem <;> simp_all
    · simp [hlong] at hmem
      simp [hmem]

/-- Witness for C8 on a concrete line with a 4-character zip and a valid
date (parse functions instantiated concretely). -/
theorem zip_length_routing_witness :
    ∃ out, readFileLine (fun _ => some (384 : ℚ)) (fun _ => true)
      ["C1", "", "", "", "", "", "", "", "", "", "9021", "", "", "01012017",
        "384", ""] = .ok out ∧
      (("9021" : String).length < 5 →
        (∀ r, Dispatch.toZip r ∉ out) ∧
        (("01012017" : String) ≠ "" → (fun (_ : String) => true) "01012017" = true →
          Dispatch.toDate ⟨"C1", "9021", "01012017",
            ((fun (_ : String) => some (384 : ℚ)) "384").getD 0⟩ ∈ out)) ∧
      (5 ≤ ("9021" : String).length →
        ∀ r, Dispatch.toZip r ∈ out → r.zipcode = ("9021" : String).take 5) :=
  zip_length_routing (fun _ => some 384) (fun _ => true) _ "C1" "9021" "01012017"
    "384" rfl rfl rfl rfl rfl (by decide) (by decide) (by decide)

/-! ## Properties of Python 3 rounding -/

theorem floor_frac_nonneg (q : ℚ) : 0 ≤ q - ⌊q⌋ :=
  sub_nonneg.mpr (Int.floor_le q)

theorem floor_frac_lt_one (q : ℚ) : q - ⌊q⌋ < 1 :=
  sub_lt_iff_lt_add.mpr (by have := Int.lt_floor_add_one q; linarith)

/-- `pyRound` lands within a half of its argument. -/
theorem abs_pyRound_sub_le (q : ℚ) : |q - pyRound q| ≤ 1/2 := by
  have h0 := floor_frac_nonneg q
  have h1 := floor_frac_lt_one q
  unfold pyRound
  by_cases hlt : q - ⌊q⌋ < 1/2
  · rw [if_pos hlt, abs_le]
    constructor <;> linarith
  · rw [if_neg hlt]
    by_cases hgt : 1/2 < q - ⌊q⌋
    · rw [if_pos hgt, abs_le]
      push_cast
      constructor <;> linarith
    · rw [if_neg hgt]
      have heq : q - ⌊q⌋ = 1/2 := le_antisymm (not_lt.mp hgt) (not_lt.mp hlt)
      by_cases hdvd : (2 : Int) ∣ ⌊q⌋
      · rw [if_pos hdvd, abs_le]
        constructor <;> linarith
      · rw [if_neg hdvd, abs_le]
        push_cast
        constructor <;> linarith

/-- On an exact tie (`q` a half-integer), `pyRound` picks the even integer. -/
theorem pyRound_tie_even (q : ℚ) (h : |q - pyRound q| = 1/2) :
    (2 : Int) ∣ pyRound q := by
  have h0 := floor_frac_nonneg q
  have h1 := floor_frac_lt_one q
  unfold pyRound at *
  by_cases hlt : q - ⌊q⌋ < 1/2
  · rw [if_pos hlt] at h
    rcases abs_eq (by norm_num : (0:ℚ) ≤ 1/2) |>.mp h with h' | h' <;> [linarith; linarith]
  · rw [if_neg hlt] at *
    by_cases hgt : 1/2 < q - ⌊q⌋
    · rw [if_pos hgt] at h
      rcases abs_eq (by norm_num : (0:ℚ) ≤ 1/2) |>.mp h with h' | h' <;>
        [push_cast at h'; push_cast at h'] <;> linarith
    · rw [if_neg hgt] at *
      by_cases hdvd : (2 : Int) ∣ ⌊q⌋
      · rw [if_pos hdvd]
        exact hdvd
      · rw [if_neg hdvd]
        rcases Int.even_or_odd ⌊q⌋ with he | ho
        · exact absurd he.two_dvd hdvd
        · rcases ho with ⟨k, hk⟩
          exact ⟨k + 1, by omega⟩

/-! ## Claim theorems: rounding of the equal-size median (C2) -/

/-- C2 counterexample: after inserting 2 then 3 for one key the two heaps
have equal size 1 with roots 2 and 3; the median actually returned is 2,
while rounding the average 2.5 away from zero would give 3 (Python 3 `round`
rounds ties to even, not away from zero). -/
theorem equal_size_median_rounding_counterexample :
    runAddRebalance "C1|12345" [2, 3] dictEmpty =
      .ok [("C1|12345", HeapPair.mk [-2] [3])] ∧
    transaction_heaps_get_median [("C1|12345", HeapPair.mk [-2] [3])] "C1|12345" =
      .ok 2 ∧
    roundHalfAwayFromZero ((2 + 3) / 2) = 3 ∧ (2 : Int) ≠ 3 := by
  refine ⟨?_, ?_, ?_, by decide⟩
  · norm_num [runAddRebalance, transaction_heaps_add_number,
      transaction_heaps_rebalance, addPair, rebalancePair, dictGet, dictSet,
      dictEmpty, emptyPair, maxHeapPeek, maxHeapPush, minHeapPush, maxHeapPop,
      minHeapPop, minHeapPeek, List.orderedInsert, except_bind_ok]
  · norm_num [transaction_heaps_get_median, dictGet, medianPair, minHeapPeek,
      maxHeapPeek, pyRound]
  · norm_num [roundHalfAwayFromZero]

/-- C2 (amended): for every tracker state in which the two heaps have equal
non-zero size, the integer median returned is the exact average of the two
root values rounded to the nearest integer with ties rounded to the EVEN
integer (Python 3 `round` semantics), not away from zero. -/
theorem equal_size_median_nearest_ties_even (d : TransHeaps) (identifier : String)
    (hp : HeapPair) (a b : ℚ)
    (hget : dictGet d identifier = some hp)
    (hlen : hp.low.length = hp.high.length)
    (ha : maxHeapPeek hp.low = some a)
    (hb : minHeapPeek hp.high = some b) :
    ∃ m : Int, transaction_heaps_get_median d identifier = .ok m ∧
      |(a + b) / 2 - m| ≤ 1/2 ∧ (|(a + b) / 2 - m| = 1/2 → (2 : Int) ∣ m) := by
  have hnotlt : ¬ hp.high.length < hp.low.length := by omega
  have hcomm : b + a = a + b := add_comm b a
  refine ⟨pyRound ((a + b) / 2), ?_, ?_, ?_⟩
  · simp [transaction_heaps_get_median, hget, medianPair, hnotlt, hlen, ha, hb,
      hcomm]
  · exact abs_pyRound_sub_le ((a + b) / 2)
  · exact pyRound_tie_even ((a + b) / 2)

/-- Witness for the amended C2 at a concrete one-element-per-heap state with
roots 2 and 3 (average 2.5 → median 2, which is even). -/
theorem equal_size_median_nearest_ties_even_witness :
    ∃ m : Int, transaction_heaps_get_median
        [("C1|90210", HeapPair.mk [-2] [3])] "C1|90210" = .ok m ∧
      |((2 : ℚ) + 3) / 2 - m| ≤ 1/2 ∧ (|((2 : ℚ) + 3) / 2 - m| = 1/2 → (2 : Int) ∣ m) :=
  equal_size_median_nearest_ties_even [("C1|90210", HeapPair.mk [-2] [3])]
    "C1|90210" (HeapPair.mk [-2] [3]) 2 3 rfl rfl (by decide) rfl

/-! ## Claim theorems: median correctness (C1) -/

/-- C1 counterexample: `transaction_heaps_get_median` does not return the
true statistical median — after inserting 2 then 3 the true median is 2.5,
but the function returns the integer 2 (it rounds with `int(round(...))`). -/
theorem median_not_true_median_counterexample :
    runAddRebalance "C2|01012017" [2, 3] dictEmpty =
      .ok [("C2|01012017", HeapPair.mk [-2] [3])] ∧
    transaction_heaps_get_median [("C2|01012017", HeapPair.mk [-2] [3])]
      "C2|01012017" = .ok 2 ∧
    trueMedian [2, 3] = 5/2 ∧ ((2 : ℚ) ≠ 5/2) := by
  refine ⟨?_, ?_, ?_, by norm_num⟩
  · norm_num [runAddRebalance, transaction_heaps_add_number,
      transaction_heaps_rebalance, addPair, rebalancePair, dictGet, dictSet,
      dictEmpty, emptyPair, maxHeapPeek, maxHeapPush, minHeapPush, maxHeapPop,
      minHeapPop, minHeapPeek, List.orderedInsert, except_bind_ok]
  · norm_num [transaction_heaps_get_median, dictGet, medianPair, minHeapPeek,
      maxHeapPeek, pyRound]
  · norm_num [trueMedian, List.insertionSort, List.orderedInsert]

/-! ## Pair-level lemmas about add and rebalance -/

theorem lowVals_maxHeapPush (h : List ℚ) (v : ℚ) :
    (maxHeapPush h v).map Neg.neg ~ v :: h.map Neg.neg := by
  have hperm : maxHeapPush h v ~ (-v) :: h :=
    List.perm_orderedInsert (· ≤ ·) (-v) h
  have := hperm.map Neg.neg
  simpa using this

theorem minHeapPush_perm (h : List ℚ) (v : ℚ) :
    minHeapPush h v ~ v :: h :=
  List.perm_orderedInsert (· ≤ ·) v h

theorem maxHeapPush_length (h : List ℚ) (v : ℚ) :
    (maxHeapPush h v).length = h.length + 1 := by
  have := (List.perm_orderedInsert (· ≤ ·) (-v) h).length_eq
  simpa [maxHeapPush] using this

theorem minHeapPush_length (h : List ℚ) (v : ℚ) :
    (minHeapPush h v).length = h.length + 1 := by
  have := (List.perm_orderedInsert (· ≤ ·) v h).length_eq
  simpa [minHeapPush] using this

theorem pairContents_length (hp : HeapPair) :
    (pairContents hp).length = hp.low.length + hp.high.length := by
  simp [pairContents, lowVals]

/-- Adding a value appends it to the pair's multiset of values. -/
theorem pairContents_addPair (hp : HeapPair) (q : ℚ) :
    pairContents (addPair hp q) ~ q :: pairContents hp := by
  cases hml : maxHeapPeek hp.low with
  | none =>
    simp only [addPair, hml, pairContents, lowVals]
    exact (lowVals_maxHeapPush hp.low q).append_right hp.high
  | some m =>
    simp only [addPair, hml]
    by_cases hq : q < m
    · rw [if_pos hq]
      simp only [pairContents, lowVals]
      exact (lowVals_maxHeapPush hp.low q).append_right hp.high
    · rw [if_neg hq]
      simp only [pairContents, lowVals]
      calc hp.low.map Neg.neg ++ minHeapPush hp.high q
          ~ hp.low.map Neg.neg ++ (q :: hp.high) :=
            (minHeapPush_perm hp.high q).append_left _
        _ ~ q :: (hp.low.map Neg.neg ++ hp.high) := List.perm_middle

/-- Adding a value grows exactly one of the two heaps by one element. -/
theorem addPair_lengths (hp : HeapPair) (q : ℚ) :
    ((addPair hp q).low.length = hp.low.length + 1 ∧
      (addPair hp q).high.length = hp.high.length) ∨
    ((addPair hp q).low.length = hp.low.length ∧
      (addPair hp q).high.length = hp.high.length + 1) := by
  cases hml : maxHeapPeek hp.low with
  | none => simp [addPair, hml, maxHeapPush_length]
  | some m =>
    by_cases hq : q < m
    · simp [addPair, hml, hq, maxHeapPush_length]
    · simp [addPair, hml, hq, minHeapPush_length]

/-- Rebalancing is a no-op when the two heaps have equal size. -/
theorem rebalancePair_eq_of_equal_sizes (hp : HeapPair)
    (h : hp.low.length = hp.high.length) : rebalancePair hp = hp := by
  unfold rebalancePair
  rw [if_neg (by omega), if_neg (by omega)]

/-- Rebalancing preserves the pair's multiset of values. -/
theorem pairContents_rebalancePair (hp : HeapPair) :
    pairContents (rebalancePair hp) ~ pairContents hp := by
  obtain ⟨low, high⟩ := hp
  unfold rebalancePair
  by_cases h1 : high.length < low.length
  · rw [if_pos h1]
    by_cases h2 : high.length + 2 ≤ low.length
    · rw [if_pos h2]
      cases low with
      | nil => simp at h1
      | cons l0 lt =>
        simp only [maxHeapPop, List.head?, List.tail, Option.map]
        simp only [pairContents, lowVals, List.map]
        calc lt.map Neg.neg ++ minHeapPush high (-l0)
            ~ lt.map Neg.neg ++ ((-l0) :: high) :=
              (minHeapPush_perm high (-l0)).append_left _
          _ ~ (-l0) :: (lt.map Neg.neg ++ high) := List.perm_middle
    · rw [if_neg h2]
  · rw [if_neg h1]
    by_cases h2 : low.length + 2 ≤ high.length
    · rw [if_pos h2]
      cases high with
      | nil => simp at h2
      | cons h0 ht =>
        simp only [minHeapPop, List.head?, List.tail]
        simp only [pairContents, lowVals]
        calc (maxHeapPush low h0).map Neg.neg ++ ht
            ~ (h0 :: low.map Neg.neg) ++ ht :=
              (lowVals_maxHeapPush low h0).append_right ht
          _ = h0 :: (low.map Neg.neg ++ ht) := rfl
          _ ~ low.map Neg.neg ++ (h0 :: ht) := List.perm_middle.symm
    · rw [if_neg h2]

/-- Within one rebalance call, at most one element moves between the heaps:
either the pair is untouched, or exactly one value `v` leaves one heap and
is pushed into the other. -/
def MovesAtMostOne (hp hp' : HeapPair) : Prop :=
  hp' = hp ∨ ∃ v,
    (lowVals hp ~ v :: lowVals hp' ∧ hp'.high ~ v :: hp.high) ∨
    (hp.high ~ v :: hp'.high ∧ lowVals hp' ~ v :: lowVals hp)

theorem rebalancePair_movesAtMostOne (hp : HeapPair) :
    MovesAtMostOne hp (rebalancePair hp) := by
  obtain ⟨low, high⟩ := hp
  unfold MovesAtMostOne rebalancePair
  by_cases h1 : high.length < low.length
  · rw [if_pos h1]
    by_cases h2 : high.length + 2 ≤ low.length
    · rw [if_pos h2]
      cases low with
      | nil => simp at h1
      | cons l0 lt =>
        simp only [maxHeapPop, List.head?, List.tail, Option.map]
        refine Or.inr ⟨-l0, Or.inl ⟨?_, ?_⟩⟩
        · simp [lowVals]
        · exact minHeapPush_perm high (-l0)
    · rw [if_neg h2]
      exact Or.inl rfl
  · rw [if_neg h1]
    by_cases h2 : low.length + 2 ≤ high.length
    · rw [if_pos h2]
      cases high with
      | nil => simp at h2
      | cons h0 ht =>
        simp only [minHeapPop, List.head?, List.tail]
        refine Or.inr ⟨h0, Or.inr ⟨?_, ?_⟩⟩
        · exact List.Perm.refl _
        · exact lowVals_maxHeapPush low h0
    · rw [if_neg h2]
      exact Or.inl rfl

/-- Size-balance facts needed for the balance invariant. -/
def SizeBalanced (hp : HeapPair) : Prop :=
  hp.high.length ≤ hp.low.length + 1 ∧ hp.low.length ≤ hp.high.length + 1

theorem rebalancePair_balances (hp : HeapPair)
    (h : hp.high.length ≤ hp.low.length + 2 ∧ hp.low.length ≤ hp.high.length + 2) :
    SizeBalanced (rebalancePair hp) := by
  obtain ⟨low, high⟩ := hp
  unfold SizeBalanced rebalancePair
  by_cases h1 : high.length < low.length
  · rw [if_pos h1]
    by_cases h2 : high.length + 2 ≤ low.length
    · rw [if_pos h2]
      cases low with
      | nil => simp at h1
      | cons l0 lt =>
        simp only [maxHeapPop, List.head?, List.tail, Option.map]
        simp only [minHeapPush_length]
        simp_all
        omega
    · rw [if_neg h2]
      constructor <;> simp <;> omega
  · rw [if_neg h1]
    by_cases h2 : low.length + 2 ≤ high.length
    · rw [if_pos h2]
      cases high with
      | nil => simp at h2
      | cons h0 ht =>
        simp only [minHeapPop, List.head?, List.tail]
        simp only [maxHeapPush_length]
        simp_all
        omega
    · rw [if_neg h2]
      constructor <;> simp <;> omega

theorem stepPair_sizeBalanced (hp : HeapPair) (q : ℚ) (h : SizeBalanced hp) :
    SizeBalanced (stepPair hp q) := by
  unfold stepPair
  apply rebalancePair_balances
  rcases addPair_lengths hp q with ⟨hl, hh⟩ | ⟨hl, hh⟩ <;>
    (obtain ⟨b1, b2⟩ := h; rw [hl, hh]; omega)

theorem foldl_stepPair_sizeBalanced (vals : List ℚ) (hp : HeapPair)
    (h : SizeBalanced hp) : SizeBalanced (vals.foldl stepPair hp) := by
  induction vals generalizing hp with
  | nil => exact h
  | cons q rest ih => exact ih _ (stepPair_sizeBalanced hp q h)

/-! ## Dict-level run lemmas -/

theorem rebalance_ok_inv (d d1 : TransHeaps) (identifier : String)
    (h : transaction_heaps_rebalance d identifier = .ok d1) :
    ∃ hp, dictGet d identifier = some hp ∧
      d1 = dictSet d identifier (rebalancePair hp) := by
  unfold transaction_heaps_rebalance at h
  cases hg : dictGet d identifier <;> rw [hg] at h
  · simp at h
  · cases h
    exact ⟨_, rfl, rfl⟩

theorem dictGet_add_self (d : TransHeaps) (identifier : String) (q : ℚ) :
    dictGet (transaction_heaps_add_number d identifier q) identifier =
      some (addPair ((dictGet d identifier).getD emptyPair) q) :=
  dictGet_dictSet_self d identifier _

theorem runAddRebalance_ok_of_some (identifier : String) :
    ∀ (vals : List ℚ) (d : TransHeaps) (hp : HeapPair),
      dictGet d identifier = some hp →
      ∃ d', runAddRebalance identifier vals d = .ok d' ∧
        dictGet d' identifier = some (vals.foldl stepPair hp)
  | [], d, hp, hget => ⟨d, rfl, by simpa using hget⟩
  | q :: rest, d, hp, hget => by
    have h1 : dictGet (transaction_heaps_add_number d identifier q) identifier =
        some (addPair hp q) := by
      rw [dictGet_add_self, hget]
      rfl
    have hrb : transaction_heaps_rebalance
        (transaction_heaps_add_number d identifier q) identifier =
        .ok (dictSet (transaction_heaps_add_number d identifier q) identifier
          (rebalancePair (addPair hp q))) := by
      unfold transaction_heaps_rebalance
      rw [h1]
    have h2 : dictGet (dictSet (transaction_heaps_add_number d identifier q)
        identifier (rebalancePair (addPair hp q))) identifier =
        some (stepPair hp q) :=
      dictGet_dictSet_self _ identifier _
    obtain ⟨d', hrun, hget'⟩ := runAddRebalance_ok_of_some identifier rest _ _ h2
    refine ⟨d', ?_, hget'⟩
    show (do
      let d' ← transaction_heaps_rebalance
        (transaction_heaps_add_number d identifier q) identifier
      runAddRebalance identifier rest d') = .ok d'
    rw [hrb, except_bind_ok]
    exact hrun

theorem runAddRebalance_ok (identifier : String) (vals : List ℚ)
    (d : TransHeaps) (hne : vals ≠ []) :
    ∃ d', runAddRebalance identifier vals d = .ok d' ∧
      dictGet d' identifier =
        some (vals.foldl stepPair ((dictGet d identifier).getD emptyPair)) := by
  cases vals with
  | nil => exact absurd rfl hne
  | cons q rest =>
    have h1 : dictGet (transaction_heaps_add_number d identifier q) identifier =
        some (addPair ((dictGet d identifier).getD emptyPair) q) :=
      dictGet_add_self d identifier q
    have hrb : transaction_heaps_rebalance
        (transaction_heaps_add_number d identifier q) identifier =
        .ok (dictSet (transaction_heaps_add_number d identifier q) identifier
          (rebalancePair (addPair ((dictGet d identifier).getD emptyPair) q))) := by
      unfold transaction_heaps_rebalance
      rw [h1]
    have h2 : dictGet (dictSet (transaction_heaps_add_number d identifier q)
        identifier (rebalancePair (addPair ((dictGet d identifier).getD emptyPair) q)))
        identifier = some (stepPair ((dictGet d identifier).getD emptyPair) q) :=
      dictGet_dictSet_self _ identifier _
    obtain ⟨d', hrun, hget'⟩ := runAddRebalance_ok_of_some identifier rest _ _ h2
    refine ⟨d', ?_, hget'⟩
    show (do
      let d' ← transaction_heaps_rebalance
        (transaction_heaps_add_number d identifier q) identifier
      runAddRebalance identifier rest d') = .ok d'
    rw [hrb, except_bind_ok]
    exact hrun

/-! ## Claim theorems: balance invariant (C5) -/

/-- C5: for every sequence of insertions (each immediately rebalanced) into
one group's heap pair the two heap sizes differ by at most 1 afterwards;
moreover a rebalance call is a no-op when the sizes are equal, and in
general moves at most one element between the heaps. -/
theorem balance_invariant (identifier : String) (vals : List ℚ) :
    (∃ d', runAddRebalance identifier vals dictEmpty = .ok d' ∧
      ((dictGet d' identifier).getD emptyPair).high.length ≤
        ((dictGet d' identifier).getD emptyPair).low.length + 1 ∧
      ((dictGet d' identifier).getD emptyPair).low.length ≤
        ((dictGet d' identifier).getD emptyPair).high.length + 1) ∧
    (∀ hp : HeapPair, hp.low.length = hp.high.length → rebalancePair hp = hp) ∧
    (∀ hp : HeapPair, MovesAtMostOne hp (rebalancePair hp)) := by
  refine ⟨?_, rebalancePair_eq_of_equal_sizes, rebalancePair_movesAtMostOne⟩
  cases vals with
  | nil => exact ⟨dictEmpty, rfl, by simp [dictEmpty, dictGet, emptyPair]⟩
  | cons q rest =>
    obtain ⟨d', hrun, hget⟩ :=
      runAddRebalance_ok identifier (q :: rest) dictEmpty (by simp)
    refine ⟨d', hrun, ?_⟩
    rw [hget]
    have hbal : SizeBalanced ((q :: rest).foldl stepPair
        ((dictGet dictEmpty identifier).getD emptyPair)) := by
      apply foldl_stepPair_sizeBalanced
      constructor <;> simp [dictEmpty, dictGet, emptyPair]
    exact hbal

/-- Witness for C5 at the insertion sequence [5, 2, 8] and a concrete
balanced pair. -/
theorem balance_invariant_witness :
    (∃ d', runAddRebalance "C3|90210" [5, 2, 8] dictEmpty = .ok d' ∧
      ((dictGet d' "C3|90210").getD emptyPair).high.length ≤
        ((dictGet d' "C3|90210").getD emptyPair).low.length + 1 ∧
      ((dictGet d' "C3|90210").getD emptyPair).low.length ≤
        ((dictGet d' "C3|90210").getD emptyPair).high.length + 1) ∧
    rebalancePair (HeapPair.mk [-1] [2]) = HeapPair.mk [-1] [2] ∧
    MovesAtMostOne (HeapPair.mk [-1] [2]) (rebalancePair (HeapPair.mk [-1] [2])) :=
  ⟨(balance_invariant "C3|90210" [5, 2, 8]).1,
   (balance_invariant "C3|90210" [5, 2, 8]).2.1 (HeapPair.mk [-1] [2]) rfl,
   (balance_invariant "C3|90210" [5, 2, 8]).2.2 (HeapPair.mk [-1] [2])⟩

/-! ## Claim theorems: size conservation (C6) -/

theorem runHeapOps_contents (identifier : String) :
    ∀ (ops : List HeapOp) (d d' : TransHeaps),
      runHeapOps identifier ops d = .ok d' →
      pairContentsAt d' identifier ~ pairContentsAt d identifier ++ addedVals ops := by
  intro ops
  induction ops with
  | nil =>
    intro d d' h
    cases h
    simp [addedVals]
  | cons op rest ih =>
    intro d d' h
    cases op with
    | add q =>
      have hstep : pairContentsAt (transaction_heaps_add_number d identifier q)
          identifier ~ q :: pairContentsAt d identifier := by
        unfold pairContentsAt
        rw [dictGet_add_self]
        exact pairContents_addPair _ q
      have hrest := ih _ _ h
      calc pairContentsAt d' identifier
          ~ pairContentsAt (transaction_heaps_add_number d identifier q)
              identifier ++ addedVals rest := hrest
        _ ~ (q :: pairContentsAt d identifier) ++ addedVals rest :=
            hstep.append_right _
        _ = q :: (pairContentsAt d identifier ++ addedVals rest) := rfl
        _ ~ pairContentsAt d identifier ++ (q :: addedVals rest) :=
            List.perm_middle.symm
        _ = pairContentsAt d identifier ++ addedVals (HeapOp.add q :: rest) := rfl
    | rebalance =>
      have hbind : (do
          let d1 ← transaction_heaps_rebalance d identifier
          runHeapOps identifier rest d1) = .ok d' := h
      cases hrb : transaction_heaps_rebalance d identifier with
      | error e => rw [hrb, except_bind_error] at hbind; cases hbind
      | ok d1 =>
        rw [hrb, except_bind_ok] at hbind
        obtain ⟨hp, hget, rfl⟩ := rebalance_ok_inv d d1 identifier hrb
        have hstep : pairContentsAt (dictSet d identifier (rebalancePair hp))
            identifier ~ pairContentsAt d identifier := by
          unfold pairContentsAt
          rw [dictGet_dictSet_self, hget]
          exact pairContents_rebalancePair hp
        have hrest := ih _ _ hbind
        calc pairContentsAt d' identifier
            ~ pairContentsAt (dictSet d identifier (rebalancePair hp))
                identifier ++ addedVals rest := hrest
          _ ~ pairContentsAt d identifier ++ addedVals rest :=
              hstep.append_right _
          _ = pairContentsAt d identifier ++ addedVals (HeapOp.rebalance :: rest) :=
              rfl

theorem pairSizeAt_eq_length (d : TransHeaps) (identifier : String) :
    pairSizeAt d identifier = (pairContentsAt d identifier).length := by
  simp [pairSizeAt, pairContentsAt, pairContents_length]

/-- C6: at every point of any sequence of add/rebalance calls for one group
key, the pair's stored values are exactly the values inserted so far (no
value lost or duplicated), so the heap sizes sum to the insertion count. -/
theorem size_conservation (identifier : String) (ops : List HeapOp)
    (d : TransHeaps) (h : runHeapOps identifier ops dictEmpty = .ok d) :
    pairContentsAt d identifier ~ addedVals ops ∧
    pairSizeAt d identifier = (addedVals ops).length := by
  have hc := runHeapOps_contents identifier ops dictEmpty d h
  have hemp : pairContentsAt dictEmpty identifier = [] := rfl
  rw [hemp] at hc
  simp only [List.nil_append] at hc
  exact ⟨hc, by rw [pairSizeAt_eq_length]; exact hc.length_eq⟩

/-- Witness for C6 on the call sequence add 5; rebalance; add 2; rebalance;
rebalance; add 8 (with the run evaluated concretely). -/
theorem size_conservation_witness :
    pairContentsAt [("C4|10001", HeapPair.mk [-2] [5, 8])] "C4|10001" ~
      addedVals [HeapOp.add 5, HeapOp.rebalance, HeapOp.add 2,
        HeapOp.rebalance, HeapOp.rebalance, HeapOp.add 8] ∧
    pairSizeAt [("C4|10001", HeapPair.mk [-2] [5, 8])] "C4|10001" =
      (addedVals [HeapOp.add 5, HeapOp.rebalance, HeapOp.add 2,
        HeapOp.rebalance, HeapOp.rebalance, HeapOp.add 8]).length :=
  size_conservation "C4|10001" _ _ (by
    norm_num [runHeapOps, transaction_heaps_add_number,
      transaction_heaps_rebalance, addPair, rebalancePair, dictGet, dictSet,
      dictEmpty, emptyPair, maxHeapPeek, maxHeapPush, minHeapPush, maxHeapPop,
      minHeapPop, minHeapPeek, List.orderedInsert, except_bind_ok])

/-! ## Root lemmas for sorted heaps -/

theorem maxHeapPeek_eq_none_iff (l : List ℚ) : maxHeapPeek l = none ↔ l = [] := by
  cases l <;> simp [maxHeapPeek]

theorem maxHeapPeek_cons (l0 : ℚ) (lt : List ℚ) :
    maxHeapPeek (l0 :: lt) = some (-l0) := rfl

theorem minHeapPeek_cons (h0 : ℚ) (ht : List ℚ) :
    minHeapPeek (h0 :: ht) = some h0 := rfl

theorem maxHeapPeek_mem (l : List ℚ) (m : ℚ) (hm : maxHeapPeek l = some m) :
    m ∈ l.map Neg.neg := by
  cases l with
  | nil => simp [maxHeapPeek] at hm
  | cons l0 lt =>
    rw [maxHeapPeek_cons] at hm
    injection hm with hm
    subst hm
    exact List.mem_map_of_mem _ (List.mem_cons_self l0 lt)

/-- The root of a sorted max-heap is the greatest stored value. -/
theorem maxHeapPeek_is_max (l : List ℚ) (m : ℚ) (hs : l.Sorted (· ≤ ·))
    (hm : maxHeapPeek l = some m) : ∀ a ∈ l.map Neg.neg, a ≤ m := by
  cases l with
  | nil => simp [maxHeapPeek] at hm
  | cons l0 lt =>
    rw [maxHeapPeek_cons] at hm
    injection hm with hm
    subst hm
    intro a ha
    rcases List.mem_map.mp ha with ⟨e, he, rfl⟩
    rcases List.mem_cons.mp he with rfl | he'
    · exact le_refl _
    · exact neg_le_neg (List.rel_of_sorted_cons hs e he')

/-- The root of a sorted min-heap is the least stored value. -/
theorem minHeapPeek_is_min (l : List ℚ) (m : ℚ) (hs : l.Sorted (· ≤ ·))
    (hm : minHeapPeek l = some m) : ∀ b ∈ l, m ≤ b := by
  cases l with
  | nil => simp [minHeapPeek] at hm
  | cons h0 ht =>
    rw [minHeapPeek_cons] at hm
    injection hm with hm
    subst hm
    intro b hb
    rcases List.mem_cons.mp hb with rfl | hb'
    · exact le_refl _
    · exact List.rel_of_sorted_cons hs b hb'

theorem orderedInsert_ne_nil (l : List ℚ) (x : ℚ) :
    l.orderedInsert (· ≤ ·) x ≠ [] := by
  intro h
  have hp := (List.perm_orderedInsert (· ≤ ·) x l).length_eq
  rw [h] at hp
  simp at hp

/-! ## The structural invariant of reachable heap pairs -/

/-- Invariant of a heap pair reachable by the insert/rebalance discipline:
both backing lists are sorted, every value of the lower heap is at most
every value of the higher heap, and the lower heap is empty only when the
higher heap is too. -/
structure PairInv (hp : HeapPair) : Prop where
  low_sorted : hp.low.Sorted (· ≤ ·)
  high_sorted : hp.high.Sorted (· ≤ ·)
  le_cross : ∀ a ∈ lowVals hp, ∀ b ∈ hp.high, a ≤ b
  low_nil : hp.low = [] → hp.high = []

theorem pairInv_emptyPair : PairInv emptyPair :=
  ⟨List.sorted_nil, List.sorted_nil, by simp [lowVals, emptyPair], fun _ => rfl⟩

theorem pairInv_addPair (hp : HeapPair) (q : ℚ) (inv : PairInv hp) :
    PairInv (addPair hp q) := by
  obtain ⟨L, H⟩ := hp
  obtain ⟨hls, hhs, hcross, hnil⟩ := inv
  simp only [lowVals] at hcross
  cases hml : maxHeapPeek L with
  | none =>
    have hL : L = [] := (maxHeapPeek_eq_none_iff L).mp hml
    have hH : H = [] := hnil hL
    subst hL
    subst hH
    simp only [addPair, hml]
    refine ⟨?_, List.sorted_nil, ?_, ?_⟩
    · simp only [maxHeapPush]
      exact List.sorted_nil.orderedInsert (-q) []
    · intro a _ b hb
      simp at hb
    · intro habs
      exact absurd habs (orderedInsert_ne_nil [] (-q))
  | some m =>
    have hm_max : ∀ a ∈ L.map Neg.neg, a ≤ m := maxHeapPeek_is_max L m hls hml
    have hm_mem : m ∈ L.map Neg.neg := maxHeapPeek_mem L m hml
    have hlow_ne : L ≠ [] := by
      intro h
      rw [h] at hml
      simp [maxHeapPeek] at hml
    by_cases hq : q < m
    · simp only [addPair, hml, if_pos hq]
      refine ⟨?_, hhs, ?_, ?_⟩
      · exact hls.orderedInsert (-q) L
      · intro a ha b hb
        simp only [lowVals, List.mem_map, maxHeapPush] at ha
        rcases ha with ⟨e, he, rfl⟩
        rcases (List.mem_orderedInsert (· ≤ ·)).mp he with rfl | he'
        · simpa using le_trans (le_of_lt hq) (hcross m hm_mem b hb)
        · exact hcross (-e) (List.mem_map_of_mem _ he') b hb
      · intro habs
        exact absurd habs (orderedInsert_ne_nil L (-q))
    · simp only [addPair, hml, if_neg hq]
      refine ⟨hls, ?_, ?_, ?_⟩
      · exact hhs.orderedInsert q H
      · intro a ha b hb
        simp only [lowVals] at ha
        rcases (List.mem_orderedInsert (· ≤ ·)).mp hb with rfl | hb'
        · exact le_trans (hm_max a ha) (not_lt.mp hq)
        · exact hcross a ha b hb'
      · intro habs
        exact absurd habs hlow_ne

theorem pairInv_rebalancePair (hp : HeapPair) (inv : PairInv hp) :
    PairInv (rebalancePair hp) := by
  obtain ⟨L, H⟩ := hp
  obtain ⟨hls, hhs, hcross, hnil⟩ := inv
  simp only [lowVals] at hcross
  unfold rebalancePair
  by_cases h1 : H.length < L.length
  · rw [if_pos h1]
    by_cases h2 : H.length + 2 ≤ L.length
    · rw [if_pos h2]
      cases L with
      | nil => simp at h1
      | cons l0 lt =>
        simp only [maxHeapPop, List.head?, List.tail, Option.map]
        refine ⟨hls.of_cons, ?_, ?_, ?_⟩
        · exact hhs.orderedInsert (-l0) H
        · intro a ha b hb
          simp only [lowVals, List.mem_map] at ha
          rcases ha with ⟨e, he, rfl⟩
          rcases (List.mem_orderedInsert (· ≤ ·)).mp hb with rfl | hb'
          · exact neg_le_neg (List.rel_of_sorted_cons hls e he)
          · exact hcross (-e) (List.mem_map_of_mem _ (List.mem_cons_of_mem l0 he)) b hb'
        · intro hlt
          have hlt' : lt = [] := hlt
          exfalso
          rw [hlt'] at h2
          simp only [List.length_cons, List.length_nil] at h2
          omega
    · rw [if_neg h2]
      exact ⟨hls, hhs, by simpa [lowVals] using hcross, hnil⟩
  · rw [if_neg h1]
    by_cases h2 : L.length + 2 ≤ H.length
    · rw [if_pos h2]
      cases H with
      | nil => simp at h2
      | cons h0 ht =>
        simp only [minHeapPop, List.head?, List.tail]
        refine ⟨?_, hhs.of_cons, ?_, ?_⟩
        · exact hls.orderedInsert (-h0) L
        · intro a ha b hb
          simp only [lowVals, List.mem_map, maxHeapPush] at ha
          rcases ha with ⟨e, he, rfl⟩
          rcases (List.mem_orderedInsert (· ≤ ·)).mp he with rfl | he'
          · simpa using List.rel_of_sorted_cons hhs b hb
          · exact hcross (-e) (List.mem_map_of_mem _ he')
              b (List.mem_cons_of_mem h0 hb)
        · intro habs
          exact absurd habs (orderedInsert_ne_nil L (-h0))
    · rw [if_neg h2]
      exact ⟨hls, hhs, by simpa [lowVals] using hcross, hnil⟩

theorem pairInv_stepPair (hp : HeapPair) (q : ℚ) (inv : PairInv hp) :
    PairInv (stepPair hp q) :=
  pairInv_rebalancePair _ (pairInv_addPair hp q inv)

theorem pairInv_foldl (vals : List ℚ) (hp : HeapPair) (inv : PairInv hp) :
    PairInv (vals.foldl stepPair hp) := by
  induction vals generalizing hp with
  | nil => exact inv
  | cons q rest ih => exact ih _ (pairInv_stepPair hp q inv)

theorem pairContents_stepPair (hp : HeapPair) (q : ℚ) :
    pairContents (stepPair hp q) ~ q :: pairContents hp :=
  (pairContents_rebalancePair _).trans (pairContents_addPair hp q)

theorem pairContents_foldl (vals : List ℚ) (hp : HeapPair) :
    pairContents (vals.foldl stepPair hp) ~ pairContents hp ++ vals := by
  induction vals generalizing hp with
  | nil => simp
  | cons q rest ih =>
    calc pairContents ((q :: rest).foldl stepPair hp)
        = pairContents (rest.foldl stepPair (stepPair hp q)) := rfl
      _ ~ pairContents (stepPair hp q) ++ rest := ih _
      _ ~ (q :: pairContents hp) ++ rest :=
          (pairContents_stepPair hp q).append_right rest
      _ = q :: (pairContents hp ++ rest) := rfl
      _ ~ pairContents hp ++ (q :: rest) := List.perm_middle.symm

/-! ## Median extraction from the invariant -/

theorem getD_append_length (A B : List ℚ) (j : Nat) :
    (A ++ B).getD (A.length + j) 0 = B.getD j 0 := by
  induction A with
  | nil => simp
  | cons a A ih =>
    have : (a :: A).length + j = (A.length + j) + 1 := by
      simp only [List.length_cons]
      omega
    rw [this]
    simpa using ih

theorem revNeg_sorted (l : List ℚ) (h : l.Sorted (· ≤ ·)) :
    ((l.map Neg.neg).reverse).Sorted (· ≤ ·) := by
  show ((l.map Neg.neg).reverse).Pairwise (· ≤ ·)
  rw [List.pairwise_reverse, List.pairwise_map]
  exact h.imp (fun hab => neg_le_neg hab)

/-- For an invariant-satisfying pair, sorting the stored multiset gives the
reversed lower-heap values followed by the higher heap. -/
theorem insertionSort_eq_revLow_append_high (hp : HeapPair) (vals : List ℚ)
    (inv : PairInv hp) (hperm : pairContents hp ~ vals) :
    vals.insertionSort (· ≤ ·) = (lowVals hp).reverse ++ hp.high := by
  have hp2 : vals.insertionSort (· ≤ ·) ~ (lowVals hp).reverse ++ hp.high :=
    calc vals.insertionSort (· ≤ ·)
        ~ vals := List.perm_insertionSort _ _
      _ ~ pairContents hp := hperm.symm
      _ = lowVals hp ++ hp.high := rfl
      _ ~ (lowVals hp).reverse ++ hp.high :=
          ((lowVals hp).reverse_perm.symm).append_right _
  have hs2 : ((lowVals hp).reverse ++ hp.high).Sorted (· ≤ ·) := by
    show ((lowVals hp).reverse ++ hp.high).Pairwise (· ≤ ·)
    rw [List.pairwise_append]
    refine ⟨revNeg_sorted hp.low inv.low_sorted, inv.high_sorted, ?_⟩
    intro a ha b hb
    exact inv.le_cross a (List.mem_reverse.mp ha) b hb
  exact List.eq_of_perm_of_sorted hp2 (List.sorted_insertionSort _ _) hs2

/-- For any reachable pair state, `medianPair` returns the true statistical
median of the stored values, rounded with Python 3 `round`. -/
theorem medianPair_eq_pyRound_trueMedian (hp : HeapPair) (vals : List ℚ)
    (inv : PairInv hp) (hbal : SizeBalanced hp)
    (hperm : pairContents hp ~ vals) (hne : vals ≠ []) :
    medianPair hp = .ok (pyRound (trueMedian vals)) := by
  have hs := insertionSort_eq_revLow_append_high hp vals inv hperm
  have hlen : vals.length = hp.low.length + hp.high.length := by
    have h := hperm.length_eq
    rw [pairContents_length] at h
    omega
  have hpos : 0 < vals.length := List.length_pos.mpr hne
  obtain ⟨hbal1, hbal2⟩ := hbal
  by_cases h1 : hp.high.length < hp.low.length
  · -- the lower heap is bigger by exactly one; its root is the median
    cases hlow : hp.low with
    | nil =>
      rw [hlow] at h1
      simp at h1
    | cons l0 lt =>
      rw [hlow] at h1 hbal1 hbal2 hlen
      simp only [List.length_cons] at h1 hbal1 hbal2 hlen
      have hmp : medianPair hp = .ok (pyRound (-l0)) := by
        rw [medianPair.eq_def, hlow]
        rw [if_pos (by simpa using h1)]
        rfl
      rw [hmp]
      have hmed : trueMedian vals = -l0 := by
        have hodd : vals.length % 2 = 1 := by omega
        have hidx : vals.length / 2 =
            ((lt.map Neg.neg).reverse).length + 0 := by
          simp only [List.length_reverse, List.length_map]
          omega
        rw [trueMedian, if_pos hodd, hs, hidx]
        simp only [lowVals]
        rw [hlow]
        simp only [List.map_cons, List.reverse_cons, List.append_assoc,
          List.singleton_append]
        rw [getD_append_length]
        rfl
      rw [hmed]
  · by_cases h2 : hp.low.length = hp.high.length
    · -- equal sizes: both heaps non-empty, median is the rounded average
      cases hlow : hp.low with
      | nil =>
        exfalso
        have hh := inv.low_nil hlow
        rw [hlow, hh] at hlen
        simp only [List.length_nil] at hlen
        omega
      | cons l0 lt =>
        cases hhigh : hp.high with
        | nil =>
          exfalso
          rw [hlow, hhigh] at h2
          simp at h2
        | cons h0 ht =>
          rw [hlow, hhigh] at h2 hlen
          simp only [List.length_cons] at h2 hlen
          have hmp : medianPair hp = .ok (pyRound ((h0 + -l0) / 2)) := by
            rw [medianPair.eq_def, hlow, hhigh]
            rw [if_neg (by rw [hlow, hhigh] at h1; simpa using h1),
              if_pos (by simpa using h2)]
            rfl
          rw [hmp]
          have heven : ¬ vals.length % 2 = 1 := by omega
          have hidx1 : vals.length / 2 - 1 =
              ((lt.map Neg.neg).reverse).length + 0 := by
            simp only [List.length_reverse, List.length_map]
            omega
          have hidx2 : vals.length / 2 =
              ((lt.map Neg.neg).reverse).length + 1 := by
            simp only [List.length_reverse, List.length_map]
            omega
          have hmed : trueMedian vals = (-l0 + h0) / 2 := by
            rw [trueMedian, if_neg heven, hs, hidx1, hidx2]
            simp only [lowVals]
            rw [hlow, hhigh]
            simp only [List.map_cons, List.reverse_cons,
              List.append_assoc, List.singleton_append]
            rw [getD_append_length, getD_append_length]
            rfl
          rw [hmed, add_comm (-l0) h0]
    · -- the higher heap is bigger by exactly one; its root is the median
      cases hhigh : hp.high with
      | nil =>
        exfalso
        rw [hhigh] at h1 h2
        simp only [List.length_nil] at h1 h2
        omega
      | cons h0 ht =>
        rw [hhigh] at h1 h2 hbal1 hbal2 hlen
        simp only [List.length_cons] at h1 h2 hbal1 hbal2 hlen
        have hmp : medianPair hp = .ok (pyRound h0) := by
          rw [medianPair.eq_def, hhigh]
          rw [if_neg (by simpa using h1), if_neg (by simpa using h2)]
          rfl
        rw [hmp]
        have hodd : vals.length % 2 = 1 := by omega
        have hidx : vals.length / 2 = ((lowVals hp).reverse).length + 0 := by
          simp only [List.length_reverse, lowVals, List.length_map]
          omega
        have hmed : trueMedian vals = h0 := by
          rw [trueMedian, if_pos hodd, hs, hhigh, hidx]
          rw [getD_append_length]
          rfl
        rw [hmed]

/-- C1 (amended): for every non-empty sequence of values inserted one at a
time into a single group's heap pair via `transaction_heaps_add_number`,
each insertion immediately followed by one `transaction_heaps_rebalance`
call, `transaction_heaps_get_median` returns the true statistical median of
the multiset inserted so far ROUNDED to the nearest integer with ties to the
even integer (`int(round(...))` with Python 3 semantics) — not the exact
median, which may be a non-integer. -/
theorem running_median_correct (identifier : String) (vals : List ℚ)
    (hne : vals ≠ []) :
    ∃ d, runAddRebalance identifier vals dictEmpty = .ok d ∧
      transaction_heaps_get_median d identifier =
        .ok (pyRound (trueMedian vals)) := by
  obtain ⟨d, hrun, hget⟩ := runAddRebalance_ok identifier vals dictEmpty hne
  refine ⟨d, hrun, ?_⟩
  have hstart : (dictGet dictEmpty identifier).getD emptyPair = emptyPair := rfl
  rw [hstart] at hget
  unfold transaction_heaps_get_median
  rw [hget]
  apply medianPair_eq_pyRound_trueMedian _ vals
  · exact pairInv_foldl vals emptyPair pairInv_emptyPair
  · exact foldl_stepPair_sizeBalanced vals emptyPair
      ⟨by simp [emptyPair], by simp [emptyPair]⟩
  · have h := pairContents_foldl vals emptyPair
    simpa [pairContents, lowVals, emptyPair] using h
  · exact hne

/-- Witness for the amended C1 on the spec's own scenario [5, 2, 8]. -/
theorem running_median_correct_witness :
    ∃ d, runAddRebalance "C5|08012016" [5, 2, 8] dictEmpty = .ok d ∧
      transaction_heaps_get_median d "C5|08012016" =
        .ok (pyRound (trueMedian [5, 2, 8])) :=
  running_median_correct "C5|08012016" [5, 2, 8] (by simp)

/-! ## Handler inversion lemmas -/

/-- On a successful non-sentinel zip-handler step, the totals dict gets the
key's previous running sum plus the record's amount; the sentinel leaves the
totals untouched. -/
theorem zipHandler_total (s s' : ThreadState) (r : PyRecord)
    (h : zipHandler s r = .ok s') :
    (r.cmte_id = "" ∧ s'.total_amt_dict = s.total_amt_dict) ∨
    (r.cmte_id ≠ "" ∧ s'.total_amt_dict = dictSet s.total_amt_dict
      (r.cmte_id ++ "|" ++ r.zipcode)
      ((dictGet s.total_amt_dict (r.cmte_id ++ "|" ++ r.zipcode)).getD 0 +
        r.transaction_amt)) := by
  by_cases hc : r.cmte_id = ""
  · left
    refine ⟨hc, ?_⟩
    unfold zipHandler at h
    rw [if_pos hc] at h
    injection h with h
    rw [← h]
  · right
    refine ⟨hc, ?_⟩
    simp only [zipHandler, if_neg hc] at h
    cases hrb : transaction_heaps_rebalance
        (transaction_heaps_add_number s.transaction_amt_heaps
          (r.cmte_id ++ "|" ++ r.zipcode) r.transaction_amt)
        (r.cmte_id ++ "|" ++ r.zipcode) with
    | error e => rw [hrb, except_bind_error] at h; cases h
    | ok heaps2 =>
      rw [hrb, except_bind_ok] at h
      cases hhp : pyDictGet heaps2 (r.cmte_id ++ "|" ++ r.zipcode) with
      | error e => rw [hhp, except_bind_error] at h; cases h
      | ok hp =>
        rw [hhp, except_bind_ok] at h
        cases hmed : transaction_heaps_get_median heaps2
            (r.cmte_id ++ "|" ++ r.zipcode) with
        | error e => rw [hmed, except_bind_error] at h; cases h
        | ok med =>
          rw [hmed, except_bind_ok] at h
          injection h with h
          rw [← h]

/-- On a successful date-handler step the totals dict is updated the same
way under the date-keyed identifier; the sentinel flush leaves it unchanged. -/
theorem dateHandler_total (s s' : ThreadState) (r : PyRecord)
    (h : dateHandler s r = .ok s') :
    (r.cmte_id = "" ∧ s'.total_amt_dict = s.total_amt_dict) ∨
    (r.cmte_id ≠ "" ∧ s'.total_amt_dict = dictSet s.total_amt_dict
      (r.cmte_id ++ "|" ++ r.transaction_dt)
      ((dictGet s.total_amt_dict (r.cmte_id ++ "|" ++ r.transaction_dt)).getD 0 +
        r.transaction_amt)) := by
  by_cases hc : r.cmte_id = ""
  · left
    refine ⟨hc, ?_⟩
    simp only [dateHandler, if_pos hc] at h
    cases hfl : dateFlushLoop s.total_amt_dict s.transaction_amt_heaps
        (s.transaction_amt_heaps.map Prod.fst) [] with
    | error e => rw [hfl, except_bind_error] at h; cases h
    | ok lines =>
      rw [hfl, except_bind_ok] at h
      injection h with h
      rw [← h]
  · right
    refine ⟨hc, ?_⟩
    simp only [dateHandler, if_neg hc] at h
    cases hrb : transaction_heaps_rebalance
        (transaction_heaps_add_number s.transaction_amt_heaps
          (r.cmte_id ++ "|" ++ r.transaction_dt) r.transaction_amt)
        (r.cmte_id ++ "|" ++ r.transaction_dt) with
    | error e => rw [hrb, except_bind_error] at h; cases h
    | ok heaps2 =>
      rw [hrb, except_bind_ok] at h
      injection h with h
      rw [← h]

/-! ## Claim theorems: monotone running sum (C4) -/

/-- C4 counterexample: a record with a negative amount makes the stored
running sum decrease — processing amounts 5 then -1 for one date-group key
drops the total from 5 to 4. -/
theorem running_sum_decreases_counterexample :
    dateHandler initialThreadState (PyRecord.mk "C1" "" "01012017" 5) =
      .ok (ThreadState.mk [("C1|01012017", 5)]
        [("C1|01012017", HeapPair.mk [-5] [])] [] false) ∧
    dateHandler (ThreadState.mk [("C1|01012017", 5)]
        [("C1|01012017", HeapPair.mk [-5] [])] [] false)
      (PyRecord.mk "C1" "" "01012017" (-1)) =
      .ok (ThreadState.mk [("C1|01012017", 4)]
        [("C1|01012017", HeapPair.mk [1] [5])] [] false) ∧
    ((4 : ℚ) < 5) := by
  have happ : ("C1" ++ "|" ++ "01012017" : String) = "C1|01012017" := by decide
  have hcm : (("C1" : String) = "") = False := by decide
  refine ⟨?_, ?_, by norm_num⟩
  · norm_num [dateHandler, initialThreadState, transaction_heaps_add_number,
      transaction_heaps_rebalance, addPair, rebalancePair, dictGet, dictSet,
      emptyPair, maxHeapPeek, maxHeapPush, minHeapPush, maxHeapPop, minHeapPop,
      minHeapPeek, List.orderedInsert, except_bind_ok, happ, hcm]
  · norm_num [dateHandler, transaction_heaps_add_number,
      transaction_heaps_rebalance, addPair, rebalancePair, dictGet, dictSet,
      emptyPair, maxHeapPeek, maxHeapPush, minHeapPush, maxHeapPop, minHeapPop,
      minHeapPeek, List.orderedInsert, except_bind_ok, happ, hcm]

/-- C4 (amended): if the transaction amounts are NONNEGATIVE, the running
sum stored for any key never decreases when either handler processes one
more record (for arbitrary real amounts it can decrease, see the
counterexample). -/
theorem running_sum_monotone_nonneg (s s' : ThreadState) (r : PyRecord)
    (key : String) (hamt : 0 ≤ r.transaction_amt)
    (h : zipHandler s r = .ok s' ∨ dateHandler s r = .ok s') :
    (dictGet s.total_amt_dict key).getD 0 ≤
      (dictGet s'.total_amt_dict key).getD 0 := by
  have hupd : s'.total_amt_dict = s.total_amt_dict ∨
      ∃ identifier, s'.total_amt_dict = dictSet s.total_amt_dict identifier
        ((dictGet s.total_amt_dict identifier).getD 0 + r.transaction_amt) := by
    rcases h with h | h
    · rcases zipHandler_total s s' r h with ⟨_, he⟩ | ⟨_, he⟩
      · exact Or.inl he
      · exact Or.inr ⟨_, he⟩
    · rcases dateHandler_total s s' r h with ⟨_, he⟩ | ⟨_, he⟩
      · exact Or.inl he
      · exact Or.inr ⟨_, he⟩
  rcases hupd with he | ⟨identifier, he⟩
  · rw [he]
  · rw [he]
    by_cases hk : identifier = key
    · subst hk
      rw [dictGet_dictSet_self]
      simp only [Option.getD_some]
      linarith
    · rw [dictGet_dictSet_other s.total_amt_dict identifier key _ hk]

/-- Witness for the amended C4: one zip record of amount 7 for a fresh key
does not decrease the (previously missing, hence 0) total of that key. -/
theorem running_sum_monotone_nonneg_witness :
    (dictGet initialThreadState.total_amt_dict "C1|10001").getD 0 ≤
      (dictGet (ThreadState.mk [("C1|10001", 7)]
        [("C1|10001", HeapPair.mk [-7] [])]
        ["C1" ++ "|" ++ "10001" ++ "|" ++ toString (7 : Int) ++ "|" ++
          toString (1 : Nat) ++ "|" ++ toString (7 : Int)] false).total_amt_dict
        "C1|10001").getD 0 :=
  running_sum_monotone_nonneg initialThreadState _
    (PyRecord.mk "C1" "10001" "01012017" 7) "C1|10001" (by norm_num)
    (Or.inl (by
      have happ : ("C1" ++ "|" ++ "10001" : String) = "C1|10001" := by decide
      have hcm : (("C1" : String) = "") = False := by decide
      norm_num [zipHandler, initialThreadState, transaction_heaps_add_number,
        transaction_heaps_rebalance, transaction_heaps_get_median, addPair,
        rebalancePair, medianPair, dictGet, dictSet, emptyPair, maxHeapPeek,
        maxHeapPush, minHeapPush, maxHeapPop, minHeapPop, minHeapPeek,
        List.orderedInsert, except_bind_ok, pyDictGet, pyInt, pyRound,
        happ, hcm]))

/-! ## Emission-shape lemmas (C3) -/

/-- A successful non-sentinel zip-handler step emits exactly one line whose
final field is the updated running sum TRUNCATED toward zero via `int()`. -/
theorem zipHandler_emits_truncated_total (s s' : ThreadState) (r : PyRecord)
    (hc : r.cmte_id ≠ "") (h : zipHandler s r = .ok s') :
    ∃ (med : Int) (cnt : Nat),
      s'.output_lines = s.output_lines ++
        [r.cmte_id ++ "|" ++ r.zipcode ++ "|" ++ toString med ++ "|" ++
          toString cnt ++ "|" ++
          toString (pyInt ((dictGet s.total_amt_dict
            (r.cmte_id ++ "|" ++ r.zipcode)).getD 0 + r.transaction_amt))] := by
  simp only [zipHandler, if_neg hc] at h
  cases hrb : transaction_heaps_rebalance
      (transaction_heaps_add_number s.transaction_amt_heaps
        (r.cmte_id ++ "|" ++ r.zipcode) r.transaction_amt)
      (r.cmte_id ++ "|" ++ r.zipcode) with
  | error e => rw [hrb, except_bind_error] at h; cases h
  | ok heaps2 =>
    rw [hrb, except_bind_ok] at h
    cases hhp : pyDictGet heaps2 (r.cmte_id ++ "|" ++ r.zipcode) with
    | error e => rw [hhp, except_bind_error] at h; cases h
    | ok hp =>
      rw [hhp, except_bind_ok] at h
      cases hmed : transaction_heaps_get_median heaps2
          (r.cmte_id ++ "|" ++ r.zipcode) with
      | error e => rw [hmed, except_bind_error] at h; cases h
      | ok med =>
        rw [hmed, except_bind_ok] at h
        injection h with h
        exact ⟨med, hp.low.length + hp.high.length, by rw [← h]⟩

/-- Every line produced by the date-thread flush loop (beyond those already
accumulated) ends in `int(total)` for the running sum stored for its group
key: truncation toward zero, not rounding. -/
theorem dateFlushLoop_lines (totals : PyDict ℚ) (heaps : TransHeaps) :
    ∀ (keys acc lines : List String),
      dateFlushLoop totals heaps keys acc = .ok lines →
      ∀ line ∈ lines, line ∈ acc ∨
        ∃ identifier ∈ keys, ∃ (t : ℚ) (med : Int) (cnt : Nat) (c dt : String),
          dictGet totals identifier = some t ∧
          line = c ++ "|" ++ dt ++ "|" ++ toString med ++ "|" ++
            toString cnt ++ "|" ++ toString (pyInt t)
  | [], acc, lines, h => by
    injection h with h
    subst h
    intro line hl
    exact Or.inl hl
  | identifier :: rest, acc, lines, h => by
    simp only [dateFlushLoop] at h
    cases hhp : pyDictGet heaps identifier with
    | error e => rw [hhp, except_bind_error] at h; cases h
    | ok hp =>
      rw [hhp, except_bind_ok] at h
      cases hmed : transaction_heaps_get_median heaps identifier with
      | error e => rw [hmed, except_bind_error] at h; cases h
      | ok med =>
        rw [hmed, except_bind_ok] at h
        cases htot : pyDictGet totals identifier with
        | error e => rw [htot, except_bind_error] at h; cases h
        | ok t =>
          rw [htot, except_bind_ok] at h
          cases hc0 : pyListGet (pySplitPipe identifier) 0 with
          | error e => rw [hc0, except_bind_error] at h; cases h
          | ok c =>
            rw [hc0, except_bind_ok] at h
            cases hc1 : pyListGet (pySplitPipe identifier) 1 with
            | error e => rw [hc1, except_bind_error] at h; cases h
            | ok dt =>
              rw [hc1, except_bind_ok] at h
              intro line hl
              have ht : dictGet totals identifier = some t := by
                unfold pyDictGet at htot
                cases hg : dictGet totals identifier <;> rw [hg] at htot
                · cases htot
                · injection htot with htot
                  rw [htot]
              rcases dateFlushLoop_lines totals heaps rest _ lines h line hl with
                hin | ⟨id2, hid2, rest'⟩
              · rcases List.mem_append.mp hin with hin | hin
                · exact Or.inl hin
                · right
                  refine ⟨identifier, List.mem_cons_self _ _, t, med,
                    hp.low.length + hp.high.length, c, dt, ht, ?_⟩
                  simpa using hin
              · exact Or.inr ⟨id2, List.mem_cons_of_mem _ hid2, rest'⟩

/-! ## Claim theorems: final output field (C3) -/

/-- C3 counterexample: processing one zip record of amount 10.7 emits the
line `C1|10001|11|1|10` — the final field is `int(10.7) = 10` (truncation),
while rounding the running sum 10.7 to the nearest integer gives 11. -/
theorem output_total_not_rounded_counterexample :
    zipHandler initialThreadState (PyRecord.mk "C1" "10001" "01012017" (107/10)) =
      .ok (ThreadState.mk [("C1|10001", 107/10)]
        [("C1|10001", HeapPair.mk [-(107/10)] [])]
        ["C1" ++ "|" ++ "10001" ++ "|" ++ toString (11 : Int) ++ "|" ++
          toString (1 : Nat) ++ "|" ++ toString (10 : Int)] false) ∧
    ("C1" ++ "|" ++ "10001" ++ "|" ++ toString (11 : Int) ++ "|" ++
      toString (1 : Nat) ++ "|" ++ toString (10 : Int)) = "C1|10001|11|1|10" ∧
    pyRound ((0 : ℚ) + 107/10) = 11 ∧ pyInt ((0 : ℚ) + 107/10) = 10 ∧
    (10 : Int) ≠ 11 := by
  have happ : ("C1" ++ "|" ++ "10001" : String) = "C1|10001" := by decide
  have hcm : (("C1" : String) = "") = False := by decide
  have hfr : Int.fract ((107 : ℚ)/10) = 7/10 := by norm_num [Int.fract]
  refine ⟨?_, by decide, ?_, ?_, by decide⟩
  · norm_num [zipHandler, initialThreadState, transaction_heaps_add_number,
      transaction_heaps_rebalance, transaction_heaps_get_median, addPair,
      rebalancePair, medianPair, dictGet, dictSet, emptyPair, maxHeapPeek,
      maxHeapPush, minHeapPush, maxHeapPop, minHeapPop, minHeapPeek,
      List.orderedInsert, except_bind_ok, pyDictGet, pyInt, pyRound, happ, hcm,
      hfr]
  · norm_num [pyRound]
  · norm_num [pyInt]

/-- C3 (amended): in every output line emitted by either aggregator
(per-record for the zip policy, at end-of-stream for the date policy), the
final field equals the group's running sum TRUNCATED toward zero with
Python `int()` — not rounded to the nearest integer. -/
theorem output_last_field_truncated_sum :
    (∀ (s s' : ThreadState) (r : PyRecord), r.cmte_id ≠ "" →
      zipHandler s r = .ok s' →
      ∃ (med : Int) (cnt : Nat),
        s'.output_lines = s.output_lines ++
          [r.cmte_id ++ "|" ++ r.zipcode ++ "|" ++ toString med ++ "|" ++
            toString cnt ++ "|" ++
            toString (pyInt ((dictGet s.total_amt_dict
              (r.cmte_id ++ "|" ++ r.zipcode)).getD 0 + r.transaction_amt))]) ∧
    (∀ (totals : PyDict ℚ) (heaps : TransHeaps) (keys acc lines : List String),
      dateFlushLoop totals heaps keys acc = .ok lines →
      ∀ line ∈ lines, line ∈ acc ∨
        ∃ identifier ∈ keys, ∃ (t : ℚ) (med : Int) (cnt : Nat) (c dt : String),
          dictGet totals identifier = some t ∧
          line = c ++ "|" ++ dt ++ "|" ++ toString med ++ "|" ++
            toString cnt ++ "|" ++ toString (pyInt t)) :=
  ⟨fun s s' r hc h => zipHandler_emits_truncated_total s s' r hc h,
   fun totals heaps keys acc lines h => dateFlushLoop_lines totals heaps keys acc lines h⟩

/-- Witness for the amended C3: the zip part applied to the concrete 10.7
record, and the date part applied to an empty flush. -/
theorem output_last_field_truncated_sum_witness :
    (∃ (med : Int) (cnt : Nat),
      (ThreadState.mk [("C1|10001", 107/10)]
        [("C1|10001", HeapPair.mk [-(107/10)] [])]
        ["C1" ++ "|" ++ "10001" ++ "|" ++ toString (11 : Int) ++ "|" ++
          toString (1 : Nat) ++ "|" ++ toString (10 : Int)] false).output_lines =
      initialThreadState.output_lines ++
        ["C1" ++ "|" ++ "10001" ++ "|" ++ toString med ++ "|" ++
          toString cnt ++ "|" ++
          toString (pyInt ((dictGet initialThreadState.total_amt_dict
            ("C1" ++ "|" ++ "10001")).getD 0 + 107/10))]) ∧
    (∀ line ∈ ([] : List String), line ∈ ([] : List String) ∨
      ∃ identifier ∈ ([] : List String),
        ∃ (t : ℚ) (med : Int) (cnt : Nat) (c dt : String),
          dictGet ([] : PyDict ℚ) identifier = some t ∧
          line = c ++ "|" ++ dt ++ "|" ++ toString med ++ "|" ++
            toString cnt ++ "|" ++ toString (pyInt t)) :=
  ⟨output_last_field_truncated_sum.1 initialThreadState _
      (PyRecord.mk "C1" "10001" "01012017" (107/10)) (by decide)
      (by
        have happ : ("C1" ++ "|" ++ "10001" : String) = "C1|10001" := by decide
        have hcm : (("C1" : String) = "") = False := by decide
        have hfr : Int.fract ((107 : ℚ)/10) = 7/10 := by norm_num [Int.fract]
        norm_num [zipHandler, initialThreadState, transaction_heaps_add_number,
          transaction_heaps_rebalance, transaction_heaps_get_median, addPair,
          rebalancePair, medianPair, dictGet, dictSet, emptyPair, maxHeapPeek,
          maxHeapPush, minHeapPush, maxHeapPop, minHeapPop, minHeapPeek,
          List.orderedInsert, except_bind_ok, pyDictGet, pyInt, pyRound,
          happ, hcm, hfr]),
   output_last_field_truncated_sum.2 [] [] [] [] [] rfl⟩

end FindPoliticalDonors
